import Mathlib

/-!
Verification of the bash-command safety classifier of the permission-gate
extension.  The TypeScript source is embedded shallowly: command strings are
lists of characters, and the quote/escape scanner, the benign-redirect
normalization, the segment splitter, the word splitter and the policy
pipeline are translated function by function from the source.  The regex
whitespace class is modelled as ASCII whitespace.  The mutual recursion
between the policy pipeline and the forwarding rule is realized with a fuel
parameter; a stabilization lemma shows the fuel is irrelevant beyond the
word count of the input, which is exactly the termination argument of the
source recursion.
-/

/-- ASCII whitespace, modelling the regex whitespace class used by the
source in redirect stripping, word splitting and trimming. -/
def wsChars : List Char :=
  [Char.ofNat 32, Char.ofNat 9, Char.ofNat 10, Char.ofNat 13, Char.ofNat 11, Char.ofNat 12]

/-- Test for a whitespace character. -/
def isWsChar (c : Char) : Bool := decide (c ∈ wsChars)

/-- The characters matched by the character class in isDangerousChar:
less-than, greater-than, backtick, dollar, both parentheses, both braces. -/
def dangerousChars : List Char :=
  [Char.ofNat 60, Char.ofNat 62, Char.ofNat 96, Char.ofNat 36,
   Char.ofNat 40, Char.ofNat 41, Char.ofNat 123, Char.ofNat 125]

/-- Check if a character is a dangerous shell metacharacter
(redirects, command substitution, variable expansion, subshells, braces). -/
def isDangerousChar (c : Char) : Bool := decide (c ∈ dangerousChars)

/-- The seven metacharacters listed by the specification sentence, which
omits the closing parenthesis that isDangerousChar also matches. -/
def sevenMetaChars : List Char :=
  [Char.ofNat 60, Char.ofNat 62, Char.ofNat 96, Char.ofNat 36,
   Char.ofNat 40, Char.ofNat 123, Char.ofNat 125]

/-- The shell operator characters pipe, semicolon and ampersand at which
the segment splitter splits. -/
def shellOps : List Char := [Char.ofNat 124, Char.ofNat 59, Char.ofNat 38]

/-- Test for a shell operator character. -/
def isShellOp (c : Char) : Bool := decide (c ∈ shellOps)

/-- State for tracking position in a shell command during parsing. -/
structure ParseState where
  inSingleQuote : Bool
  inDoubleQuote : Bool
  escaped : Bool
deriving DecidableEq

/-- The initial parse state: outside quotes, no pending escape. -/
def initState : ParseState := ⟨false, false, false⟩

/-- Advance the parser by one character.  Returns whether the character is
active (not quoted or escaped) together with the updated state.  The source
mutates the state record in place; here the new state is returned. -/
def advanceParser (c : Char) (st : ParseState) : Bool × ParseState :=
  if st.escaped then
    (false, ⟨st.inSingleQuote, st.inDoubleQuote, false⟩)
  else if c = Char.ofNat 92 then
    (false, ⟨st.inSingleQuote, st.inDoubleQuote, true⟩)
  else if c = Char.ofNat 39 ∧ st.inDoubleQuote = false then
    (false, ⟨!st.inSingleQuote, st.inDoubleQuote, false⟩)
  else if c = Char.ofNat 34 ∧ st.inSingleQuote = false then
    (false, ⟨st.inSingleQuote, !st.inDoubleQuote, false⟩)
  else
    (!st.inSingleQuote && !st.inDoubleQuote, st)

/-- Scan of hasShellMetaChars from a given state: character by character,
report true as soon as an active character is dangerous. -/
def hasShellMetaCharsGo (st : ParseState) : List Char → Bool
  | [] => false
  | c :: cs =>
    ((advanceParser c st).1 && isDangerousChar c) ||
      hasShellMetaCharsGo (advanceParser c st).2 cs

/-- Check if a command contains shell metacharacters outside of quotes. -/
def hasShellMetaChars (command : List Char) : Bool :=
  hasShellMetaCharsGo initState command

/-- The per-character activity flags of the scan, from a given state. -/
def activeFlagsGo (st : ParseState) : List Char → List Bool
  | [] => []
  | c :: cs => (advanceParser c st).1 :: activeFlagsGo (advanceParser c st).2 cs

/-- The per-character activity flags of a command, from the initial state. -/
def activeFlags (s : List Char) : List Bool := activeFlagsGo initState s

/-- A command has an active occurrence of one of the given characters when
some position holds one of them and the scan marks that position active. -/
def hasActiveOccurrence (chars : List Char) (s : List Char) : Bool :=
  (s.zip (activeFlags s)).any fun p => p.2 && decide (p.1 ∈ chars)

/-- Remove leading and trailing whitespace, as the string trim method does. -/
def trimChars (s : List Char) : List Char :=
  ((s.dropWhile isWsChar).reverse.dropWhile isWsChar).reverse

/-- Worker of splitShellCommand.  The skipping flag is set right after an
active operator character; while set, consecutive operator characters are
consumed without advancing the parser state, exactly as the inner skip loop
of the source inspects raw characters without the state machine. -/
def splitGo (st : ParseState) (cur : List Char) (skipping : Bool) :
    List Char → List (List Char)
  | [] => if trimChars cur = [] then [] else [trimChars cur]
  | c :: cs =>
    if skipping && isShellOp c then
      splitGo st cur skipping cs
    else
      if (advanceParser c st).1 && isShellOp c then
        (if trimChars cur = [] then [] else [trimChars cur]) ++
          splitGo (advanceParser c st).2 [] true cs
      else
        splitGo (advanceParser c st).2 (cur ++ [c]) false cs

/-- Split a command by shell operators while respecting quotes. -/
def splitShellCommand (command : List Char) : List (List Char) :=
  splitGo initState [] false command

/-- Skip the maximal run of leading whitespace. -/
def skipWs : List Char → List Char
  | [] => []
  | c :: cs => if isWsChar c then skipWs cs else c :: cs

/-- Match a literal at the front of a string, returning the rest. -/
def matchLit : List Char → List Char → Option (List Char)
  | [], s => some s
  | _ :: _, [] => none
  | l :: ls, c :: cs => if c = l then matchLit ls cs else none

/-- One benign-redirect pattern of the source: optional whitespace, then a
first literal, then (when a second literal is present) optional whitespace
and that second literal.  The greedy whitespace star of the regex is
deterministic here because every literal starts with a nonwhitespace
character, so skipping the maximal whitespace run is the only possible
match. -/
structure RedirPat where
  lit1 : List Char
  lit2 : Option (List Char)
deriving DecidableEq

/-- Try to match a redirect pattern at the current position, returning the
suffix after the match. -/
def tryMatchPat (p : RedirPat) (s : List Char) : Option (List Char) :=
  match matchLit p.lit1 (skipWs s) with
  | none => none
  | some r =>
    match p.lit2 with
    | none => some r
    | some l2 => matchLit l2 (skipWs r)

/-- Global replace-by-nothing of a redirect pattern, with fuel.  At each
position the pattern is tried; on a match the matched characters are
dropped and scanning resumes after them, otherwise the character is kept.
One unit of fuel is spent per step and every step consumes at least one
character of the remaining input, so fuel equal to the length of the input
reproduces the unbounded scan. -/
def replaceAllGoF (p : RedirPat) : Nat → List Char → List Char
  | 0, s => s
  | _ + 1, [] => []
  | f + 1, c :: cs =>
    match tryMatchPat p (c :: cs) with
    | some rest => replaceAllGoF p f rest
    | none => c :: replaceAllGoF p f cs

/-- Global removal of all matches of a redirect pattern. -/
def replaceAll (p : RedirPat) (s : List Char) : List Char :=
  replaceAllGoF p s.length s

/-- Whether some position of the string matches the pattern. -/
def containsMatch (p : RedirPat) : List Char → Bool
  | [] => false
  | c :: cs => (tryMatchPat p (c :: cs)).isSome || containsMatch p cs

/-- Redirect of descriptor 2 to the null device. -/
def redirPat1 : RedirPat := ⟨"2>".toList, some ("/dev/null".toList)⟩

/-- Redirect of descriptor 1 to the null device. -/
def redirPat2 : RedirPat := ⟨"1>".toList, some ("/dev/null".toList)⟩

/-- Combined redirect of stdout and stderr to the null device. -/
def redirPat3 : RedirPat := ⟨"&>".toList, some ("/dev/null".toList)⟩

/-- Bare stdout redirect to the null device. -/
def redirPat4 : RedirPat := ⟨">".toList, some ("/dev/null".toList)⟩

/-- Merge of stderr into stdout. -/
def redirPat5 : RedirPat := ⟨"2>&1".toList, none⟩

/-- The malformed double-append variant of the stderr merge. -/
def redirPat6 : RedirPat := ⟨"2>>&1".toList, none⟩

/-- The six recognized benign redirect patterns, in the order the source
applies them. -/
def redirPatterns : List RedirPat :=
  [redirPat1, redirPat2, redirPat3, redirPat4, redirPat5, redirPat6]

/-- Strip the six benign redirect forms, in the order of the source. -/
def normalizeRedirects (s : List Char) : List Char :=
  replaceAll redirPat6 (replaceAll redirPat5 (replaceAll redirPat4
    (replaceAll redirPat3 (replaceAll redirPat2 (replaceAll redirPat1 s)))))

/-- Worker of splitWords, accumulating the current word. -/
def splitWordsGo (cur : List Char) : List Char → List (List Char)
  | [] => if cur = [] then [] else [cur]
  | c :: cs =>
    if isWsChar c then
      if cur = [] then splitWordsGo [] cs else cur :: splitWordsGo [] cs
    else
      splitWordsGo (cur ++ [c]) cs

/-- Split on whitespace and drop empty tokens, as the source splits a
segment into words. -/
def splitWords (s : List Char) : List (List Char) := splitWordsGo [] s

/-- The number of whitespace-separated words of a string. -/
def numWords (s : List Char) : Nat := (splitWords s).length

/-- Join words with single spaces, as the join method of the source. -/
def joinWords : List (List Char) → List Char
  | [] => []
  | [w] => w
  | w :: w2 :: ws => w ++ Char.ofNat 32 :: joinWords (w2 :: ws)

/-- Safe read-only commands that can run without confirmation. -/
def safeBashCommands : List (List Char) :=
  List.map String.toList
    ["ls", "cat", "cd", "grep", "find", "pwd", "echo", "which", "head",
     "tail", "less", "more", "wc", "file", "stat", "printenv", "jq",
     "cut", "sort", "uniq"]

/-- Safe git subcommands. -/
def safeGitSubcommands : List (List Char) :=
  List.map String.toList
    ["log", "show", "diff", "status", "branch", "remote", "ls-files",
     "ls-tree", "blame", "describe", "tag"]

/-- Safe jar subcommands. -/
def safeJarSubcommands : List (List Char) :=
  List.map String.toList ["-tf", "-t", "--list"]

/-- Safe gh actions. -/
def safeGhActions : List (List Char) :=
  List.map String.toList
    ["view", "list", "show", "search", "status", "diff", "checks", "watch"]

/-- Safe gh resources. -/
def safeGhResources : List (List Char) :=
  List.map String.toList
    ["repo", "pr", "issue", "release", "run", "workflow", "gist"]

/-- Safe ktools actions. -/
def safeKtoolsActions : List (List Char) :=
  List.map String.toList ["list", "get", "chapters"]

/-- Safe ktools tools. -/
def safeKtoolsTools : List (List Char) :=
  List.map String.toList ["yt-transcript"]

/-- Policy 1: the first word is a simple safe command. -/
def checkSimpleSafeCommand (words : List (List Char)) : Bool :=
  match words with
  | [] => false
  | w0 :: _ => decide (w0 ∈ safeBashCommands)

/-- Policy 2, value on the inputs where the source does not throw.  The
source keys a record on the first word (git or jar) and requires a nonempty
second word in the permitted set; a missing second word is unsafe.  The
source tests the first word with the in operator on an object literal,
which also reports inherited object-prototype keys; looking such a key up
yields a value without a has method, so the source throws a TypeError when
the second word is present and nonempty.  That error path is modelled by
subcommandThrows and checkSafeSubcommandT below; on every non-throwing
input the source returns exactly this value (inherited keys short-circuit
to false when the second word is missing or empty, every other first word
fails the in test). -/
def checkSafeSubcommand (words : List (List Char)) : Bool :=
  match words with
  | w0 :: w1 :: _ =>
    if w0 = "git".toList then !w1.isEmpty && decide (w1 ∈ safeGitSubcommands)
    else if w0 = "jar".toList then !w1.isEmpty && decide (w1 ∈ safeJarSubcommands)
    else false
  | _ => false

/-- Policy 3: a safe gh command, shaped gh resource action, with a special
case for the bare version flag. -/
def checkSafeGhCommand (words : List (List Char)) : Bool :=
  match words with
  | [] => false
  | w0 :: rest =>
    if w0 = "gh".toList then
      match rest with
      | [] => false
      | w1 :: rest2 =>
        if ("--".toList).isPrefixOf w1 then w1 == "--version".toList
        else
          match rest2 with
          | [] => false
          | w2 :: _ =>
            !w1.isEmpty && !w2.isEmpty &&
              decide (w1 ∈ safeGhResources) && decide (w2 ∈ safeGhActions)
    else false

/-- Policy 4: a safe ktools command, shaped ktools tool action. -/
def checkSafeKtoolsCommand (words : List (List Char)) : Bool :=
  match words with
  | w0 :: w1 :: w2 :: _ =>
    if w0 = "ktools".toList then
      !w1.isEmpty && !w2.isEmpty &&
        decide (w1 ∈ safeKtoolsTools) && decide (w2 ∈ safeKtoolsActions)
    else false
  | _ => false

/-- The xargs flags that consume exactly one following word as argument. -/
def xargsFlagsWithArg : List (List Char) :=
  List.map String.toList ["-I", "-i", "-n", "-s", "-P", "-L", "-l"]

/-- The flag-skipping loop of the xargs policy: walk over leading words that
start with a dash; a flag in xargsFlagsWithArg also consumes the following
word, and when that word is missing the whole segment is malformed (none).
Returns the remaining words otherwise. -/
def skipXargsFlags : List (List Char) → Option (List (List Char))
  | [] => some []
  | [w] =>
    if ("-".toList).isPrefixOf w then
      if w ∈ xargsFlagsWithArg then none else some []
    else some [w]
  | w :: w2 :: ws =>
    if ("-".toList).isPrefixOf w then
      if w ∈ xargsFlagsWithArg then skipXargsFlags ws
      else skipXargsFlags (w2 :: ws)
    else some (w :: w2 :: ws)

/-- The payload the xargs policy forwards: none when a flag misses its
argument or no command remains after the flags, otherwise the remaining
words joined back with spaces. -/
def xargsPayload (ws : List (List Char)) : Option (List Char) :=
  match skipXargsFlags ws with
  | none => none
  | some [] => none
  | some (r :: rs) => some (joinWords (r :: rs))

/-- Whether the first word of a segment is xargs. -/
def isXargsWord (words : List (List Char)) : Bool :=
  words.head? == some ("xargs".toList)

/-- The policy pipeline with fuel.  An empty word list is unsafe; otherwise
a segment is safe when any policy accepts it.  The xargs policy is inlined:
it forwards its payload back into the pipeline with one unit of fuel spent,
mirroring the mutual recursion of the source. -/
def isCommandSafeF : Nat → List Char → Bool
  | 0, _ => false
  | fuel + 1, s =>
    !(splitWords s).isEmpty &&
      (checkSimpleSafeCommand (splitWords s) ||
       checkSafeSubcommand (splitWords s) ||
       checkSafeGhCommand (splitWords s) ||
       checkSafeKtoolsCommand (splitWords s) ||
       (isXargsWord (splitWords s) &&
         ((xargsPayload (splitWords s).tail).elim false (isCommandSafeF fuel))))

/-- Check if a command part passes any of the policy checks.  The fuel one
more than the word count always suffices, because each forwarding step
strictly decreases the word count. -/
def isCommandSafe (s : List Char) : Bool := isCommandSafeF (numWords s + 1) s

/-- Policy 5: check if it is a safe xargs command, forwarding the payload
after the flags into the full pipeline. -/
def checkSafeXargsCommand (words : List (List Char)) : Bool :=
  isXargsWord words && ((xargsPayload words.tail).elim false isCommandSafe)

/-- Check if a bash command is safe to run without confirmation: strip the
benign redirects, reject on active metacharacters, split into segments and
require every segment to pass the policy pipeline. -/
def isSafeBashCommand (command : List Char) : Bool :=
  if hasShellMetaChars (normalizeRedirects command) then false
  else (splitShellCommand (normalizeRedirects command)).all fun part => isCommandSafe part

/-- The property names the in operator finds on every object literal
through the prototype chain, beyond the own keys git and jar of the
subcommand record.  Each lookup yields a function (or, for the prototype
accessor, a plain object), never a Set, so a has call on it throws. -/
def protoKeys : List (List Char) :=
  List.map String.toList
    ["constructor", "__defineGetter__", "__defineSetter__", "hasOwnProperty",
     "__lookupGetter__", "__lookupSetter__", "isPrototypeOf",
     "propertyIsEnumerable", "toString", "valueOf", "__proto__",
     "toLocaleString"]

/-- The exact condition under which the subcommand policy of the source
throws a TypeError: the first word is an inherited prototype key, so the
in test succeeds, and the second word is present and nonempty, so the
conjunction reaches the has call on a value that is not a Set. -/
def subcommandThrows (words : List (List Char)) : Bool :=
  match words with
  | w0 :: w1 :: _ => decide (w0 ∈ protoKeys) && !w1.isEmpty
  | _ => false

/-- The subcommand policy with its error path: none models a thrown
TypeError, some the returned boolean, which on non-throwing inputs is
exactly checkSafeSubcommand. -/
def checkSafeSubcommandT (words : List (List Char)) : Option Bool :=
  if subcommandThrows words then none else some (checkSafeSubcommand words)

/-- The fueled policy pipeline with the error path: the policies run in
source order, an exception thrown by the subcommand policy propagates
(none), and a policy returning true short-circuits the rest, so the
subcommand policy is only reached when the simple-command policy has
returned false. -/
def isCommandSafeFT : Nat → List Char → Option Bool
  | 0, _ => some false
  | fuel + 1, s =>
    if (splitWords s).isEmpty then some false
    else if checkSimpleSafeCommand (splitWords s) then some true
    else if subcommandThrows (splitWords s) then none
    else if checkSafeSubcommand (splitWords s) then some true
    else if checkSafeGhCommand (splitWords s) then some true
    else if checkSafeKtoolsCommand (splitWords s) then some true
    else if isXargsWord (splitWords s) then
      match xargsPayload (splitWords s).tail with
      | none => some false
      | some p => isCommandSafeFT fuel p
    else some false

/-- The segment classification with the error path, at canonical fuel. -/
def isCommandSafeT (s : List Char) : Option Bool :=
  isCommandSafeFT (numWords s + 1) s

/-- The loop over segments with the error path: an exception from any
segment propagates, a false verdict stops the loop with false, and the
empty segment list falls through to true as in the source. -/
def allPartsSafeT : List (List Char) → Option Bool
  | [] => some true
  | part :: parts =>
    match isCommandSafeT part with
    | none => none
    | some false => some false
    | some true => allPartsSafeT parts

/-- The full classifier with the error path: none models the TypeError
escaping isSafeBashCommand. -/
def isSafeBashCommandT (command : List Char) : Option Bool :=
  if hasShellMetaChars (normalizeRedirects command) then some false
  else allPartsSafeT (splitShellCommand (normalizeRedirects command))

/-- The decision of the tool-call handler, with the interactive confirmation
dialog abstracted as the confirm outcome. -/
inductive ToolDecision
  | allow
  | block (reason : List Char)
  | confirm
deriving DecidableEq

/-- The tools allowed unconditionally by the handler. -/
def allowedTools : List (List Char) := [("read".toList)]

/-- The handler decision for a tool call: always allow listed tools; with no
UI available block everything else; for bash with a nonempty command judged
safe, allow; otherwise fall through to user confirmation. -/
def handleToolCall (toolName : List Char) (hasUI : Bool)
    (command : Option (List Char)) : ToolDecision :=
  if toolName ∈ allowedTools then ToolDecision.allow
  else if !hasUI then
    ToolDecision.block (toolName ++ " blocked (no UI for confirmation)".toList)
  else if toolName = "bash".toList then
    match command with
    | some cmd =>
      if !cmd.isEmpty && isSafeBashCommand cmd then ToolDecision.allow
      else ToolDecision.confirm
    | none => ToolDecision.confirm
  else ToolDecision.confirm

/-- The stateful metacharacter scan agrees with the per-position activity
flags: it reports true exactly when some position is active and holds a
dangerous character. -/
theorem hasShellMetaCharsGo_eq_any (s : List Char) : ∀ st : ParseState,
    hasShellMetaCharsGo st s =
      ((s.zip (activeFlagsGo st s)).any fun p => p.2 && isDangerousChar p.1) := by
  induction s with
  | nil => intro st; rfl
  | cons c cs ih =>
    intro st
    simp only [hasShellMetaCharsGo, activeFlagsGo, List.zip_cons_cons, List.any_cons]
    rw [ih]

/-- The metacharacter check is the active-occurrence test over the full
dangerous character set. -/
theorem hasShellMetaChars_eq_hasActive (s : List Char) :
    hasShellMetaChars s = hasActiveOccurrence dangerousChars s :=
  hasShellMetaCharsGo_eq_any s initState

/-- The seven specification metacharacters are among the dangerous ones. -/
theorem seven_mem_dangerous (c : Char) (h : c ∈ sevenMetaChars) :
    c ∈ dangerousChars := by
  fin_cases h <;> simp [dangerousChars]

/-- When no position of a string matches a pattern, the fueled global
replacement keeps every character, provided the fuel covers the length. -/
theorem replaceAllGoF_nomatch (p : RedirPat) : ∀ (s : List Char) (f : Nat),
    s.length ≤ f → containsMatch p s = false → replaceAllGoF p f s = s := by
  intro s
  induction s with
  | nil => intro f _ _; cases f <;> rfl
  | cons c cs ih =>
    intro f hl hm
    obtain ⟨f', rfl⟩ : ∃ f', f = f' + 1 := ⟨f - 1, by simp at hl; omega⟩
    rw [containsMatch, Bool.or_eq_false_iff] at hm
    have h1 : tryMatchPat p (c :: cs) = none := by
      cases h : tryMatchPat p (c :: cs) with
      | none => rfl
      | some r => rw [h] at hm; simp at hm
    simp only [replaceAllGoF, h1]
    rw [ih f' (by simp at hl ⊢; omega) hm.2]

/-- When no position of a string matches a pattern, global replacement is
the identity. -/
theorem replaceAll_nomatch (p : RedirPat) (s : List Char)
    (h : containsMatch p s = false) : replaceAll p s = s :=
  replaceAllGoF_nomatch p s s.length (Nat.le_refl _) h

/-- The word splitter consumes a whitespace-free chunk into the
accumulator. -/
theorem splitWordsGo_chunk (w : List Char) : ∀ cur t : List Char,
    (∀ c ∈ w, isWsChar c = false) →
    splitWordsGo cur (w ++ t) = splitWordsGo (cur ++ w) t := by
  induction w with
  | nil => intro cur t _; simp
  | cons c w' ih =>
    intro cur t hw
    have hc : isWsChar c = false := hw c (List.mem_cons_self c w')
    simp only [List.cons_append, splitWordsGo, hc, Bool.false_eq_true, if_false,
      List.append_eq]
    rw [ih (cur ++ [c]) t fun x hx => hw x (List.mem_cons_of_mem c hx)]
    simp

/-- Every word produced by the word splitter is nonempty and free of
whitespace, given a whitespace-free accumulator. -/
theorem splitWordsGo_nice : ∀ (s cur : List Char),
    (∀ c ∈ cur, isWsChar c = false) →
    ∀ w ∈ splitWordsGo cur s, w ≠ [] ∧ ∀ c ∈ w, isWsChar c = false := by
  intro s
  induction s with
  | nil =>
    intro cur hcur w hw
    by_cases h0 : cur = []
    · simp [splitWordsGo, h0] at hw
    · simp only [splitWordsGo, h0, if_false] at hw
      simp only [List.mem_singleton] at hw
      exact hw ▸ ⟨h0, hcur⟩
  | cons c cs ih =>
    intro cur hcur w hw
    by_cases hc : isWsChar c = true
    · by_cases h0 : cur = []
      · simp only [splitWordsGo, hc, h0, if_true] at hw
        exact ih [] (by simp) w hw
      · simp only [splitWordsGo, hc, h0, if_true, if_false] at hw
        rcases List.mem_cons.mp hw with rfl | hw2
        · exact ⟨h0, hcur⟩
        · exact ih [] (by simp) w hw2
    · have hc' : isWsChar c = false := by simpa using hc
      simp only [splitWordsGo, hc', Bool.false_eq_true, if_false] at hw
      refine ih (cur ++ [c]) ?_ w hw
      intro x hx
      rcases List.mem_append.mp hx with hx1 | hx2
      · exact hcur x hx1
      · simp only [List.mem_singleton] at hx2
        exact hx2 ▸ hc'

/-- Every word produced by splitWords is nonempty and whitespace free. -/
theorem splitWords_nice (s : List Char) :
    ∀ w ∈ splitWords s, w ≠ [] ∧ ∀ c ∈ w, isWsChar c = false :=
  splitWordsGo_nice s [] (by simp)

/-- Splitting the space-joined concatenation of nonempty whitespace-free
words recovers exactly those words. -/
theorem splitWords_join : ∀ ws : List (List Char),
    (∀ w ∈ ws, w ≠ [] ∧ ∀ c ∈ w, isWsChar c = false) →
    splitWords (joinWords ws) = ws := by
  intro ws
  induction ws with
  | nil => intro _; rfl
  | cons w ws' ih =>
    intro h
    have hw := h w (List.mem_cons_self w ws')
    cases ws' with
    | nil =>
      show splitWordsGo [] (joinWords [w]) = [w]
      have := splitWordsGo_chunk w [] [] hw.2
      simp only [List.append_nil, List.nil_append] at this
      rw [show joinWords [w] = w from rfl, this]
      simp [splitWordsGo, hw.1]
    | cons w2 ws'' =>
      show splitWordsGo [] (w ++ Char.ofNat 32 :: joinWords (w2 :: ws'')) = w :: w2 :: ws''
      have hchunk := splitWordsGo_chunk w [] (Char.ofNat 32 :: joinWords (w2 :: ws'')) hw.2
      simp only [List.nil_append] at hchunk
      rw [hchunk]
      have hsp : isWsChar (Char.ofNat 32) = true := by decide
      simp only [splitWordsGo, hsp, if_true, hw.1, if_false]
      have hrec : splitWordsGo [] (joinWords (w2 :: ws'')) = w2 :: ws'' :=
        ih fun x hx => h x (List.mem_cons_of_mem w hx)
      rw [hrec]

/-- The remaining words after the xargs flag skip form a suffix of the
input word list. -/
theorem skipXargsFlags_suffix_aux : ∀ (n : Nat) (ws r : List (List Char)),
    ws.length ≤ n → skipXargsFlags ws = some r → r <:+ ws := by
  intro n
  induction n with
  | zero =>
    intro ws r hl h
    cases ws with
    | nil =>
      simp only [skipXargsFlags, Option.some_inj] at h
      exact h ▸ List.suffix_refl []
    | cons w ws' => simp at hl
  | succ n ih =>
    intro ws r hl h
    cases ws with
    | nil =>
      simp only [skipXargsFlags, Option.some_inj] at h
      exact h ▸ List.suffix_refl []
    | cons w ws' =>
      cases ws' with
      | nil =>
        simp only [skipXargsFlags] at h
        by_cases hd : ("-".toList).isPrefixOf w = true
        · rw [if_pos hd] at h
          by_cases hf : w ∈ xargsFlagsWithArg
          · rw [if_pos hf] at h
            exact absurd h (by simp)
          · rw [if_neg hf] at h
            simp only [Option.some_inj] at h
            exact h ▸ (List.nil_suffix : ([] : List (List Char)) <:+ [w])
        · rw [if_neg hd] at h
          simp only [Option.some_inj] at h
          exact h ▸ List.suffix_refl [w]
      | cons w2 ws2 =>
        simp only [skipXargsFlags] at h
        by_cases hd : ("-".toList).isPrefixOf w = true
        · rw [if_pos hd] at h
          by_cases hf : w ∈ xargsFlagsWithArg
          · rw [if_pos hf] at h
            have hsuf := ih ws2 r (by simp at hl ⊢; omega) h
            exact hsuf.trans ((List.suffix_cons w2 ws2).trans (List.suffix_cons w (w2 :: ws2)))
          · rw [if_neg hf] at h
            have hsuf := ih (w2 :: ws2) r (by simp at hl ⊢; omega) h
            exact hsuf.trans (List.suffix_cons w (w2 :: ws2))
        · rw [if_neg hd] at h
          simp only [Option.some_inj] at h
          exact h ▸ List.suffix_refl (w :: w2 :: ws2)

/-- Wrapper of the suffix property of the flag skip. -/
theorem skipXargsFlags_suffix (ws r : List (List Char))
    (h : skipXargsFlags ws = some r) : r <:+ ws :=
  skipXargsFlags_suffix_aux ws.length ws r (Nat.le_refl _) h

/-- Characterization of a present xargs payload. -/
theorem xargsPayload_some (ws : List (List Char)) (p : List Char)
    (hp : xargsPayload ws = some p) :
    ∃ r rs, skipXargsFlags ws = some (r :: rs) ∧ p = joinWords (r :: rs) := by
  unfold xargsPayload at hp
  split at hp
  · exact absurd hp (by simp)
  · exact absurd hp (by simp)
  · rename_i r rs h
    exact ⟨r, rs, h, by simpa using hp.symm⟩

/-- The forwarded payload of the xargs policy has strictly fewer words than
the segment it came from: its words are a suffix of the tail of the
segment words, and joining then resplitting them is the identity because
split words are nonempty and whitespace free. -/
theorem xargsPayload_bound (s p : List Char)
    (hp : xargsPayload (splitWords s).tail = some p) :
    numWords p + 1 ≤ numWords s := by
  obtain ⟨r, rs, hsk, rfl⟩ := xargsPayload_some _ _ hp
  have hsuf : (r :: rs) <:+ (splitWords s).tail := skipXargsFlags_suffix _ _ hsk
  have hnice : ∀ x ∈ r :: rs, x ≠ [] ∧ ∀ c ∈ x, isWsChar c = false := by
    intro x hx
    exact splitWords_nice s x
      ((List.tail_suffix (splitWords s)).sublist.subset (hsuf.sublist.subset hx))
  have hjw : splitWords (joinWords (r :: rs)) = r :: rs := splitWords_join _ hnice
  have h1 : numWords (joinWords (r :: rs)) = rs.length + 1 := by
    simp [numWords, hjw]
  have h2 : rs.length + 1 ≤ (splitWords s).tail.length := by
    simpa using hsuf.length_le
  have h3 : (splitWords s).tail.length = numWords s - 1 := by
    simp [numWords, List.length_tail]
  omega

/-- Fuel stabilization of the policy pipeline: any fuel at least one more
than the word count yields the same verdict, because every forwarding step
strictly decreases the word count. -/
theorem isCommandSafeF_stable : ∀ (f g : Nat) (s : List Char),
    numWords s + 1 ≤ f → f ≤ g → isCommandSafeF f s = isCommandSafeF g s := by
  intro f
  induction f with
  | zero => intro g s h1 _; exact absurd h1 (by omega)
  | succ n ih =>
    intro g s h1 h2
    obtain ⟨g', rfl⟩ : ∃ g', g = g' + 1 := ⟨g - 1, by omega⟩
    simp only [isCommandSafeF]
    have key : (xargsPayload (splitWords s).tail).elim false (isCommandSafeF n) =
        (xargsPayload (splitWords s).tail).elim false (isCommandSafeF g') := by
      cases hp : xargsPayload (splitWords s).tail with
      | none => rfl
      | some p =>
        simp only [Option.elim]
        have hb := xargsPayload_bound s p hp
        exact ih g' p (by omega) (by omega)
    rw [key]

/-- The pipeline at canonical fuel equals the source-shaped disjunction of
the five policies, with the xargs policy calling the pipeline itself. -/
theorem isCommandSafe_eq (s : List Char) :
    isCommandSafe s =
      (!(splitWords s).isEmpty &&
        (checkSimpleSafeCommand (splitWords s) ||
         checkSafeSubcommand (splitWords s) ||
         checkSafeGhCommand (splitWords s) ||
         checkSafeKtoolsCommand (splitWords s) ||
         checkSafeXargsCommand (splitWords s))) := by
  show isCommandSafeF (numWords s + 1) s = _
  simp only [isCommandSafeF]
  have key : (xargsPayload (splitWords s).tail).elim false (isCommandSafeF (numWords s)) =
      (xargsPayload (splitWords s).tail).elim false isCommandSafe := by
    cases hp : xargsPayload (splitWords s).tail with
    | none => rfl
    | some p =>
      simp only [Option.elim]
      have hb := xargsPayload_bound s p hp
      exact (isCommandSafeF_stable (numWords p + 1) (numWords s) p (Nat.le_refl _) hb).symm
  rw [key]
  rfl

/-- C1: the claim says a command whose segment list is empty after
normalization and splitting classifies unsafe.  The code does the opposite:
the loop over zero segments falls through to the safe verdict, so the
delimiter-only command, the empty command and a whitespace-only command all
classify safe.  This theorem evaluates the code at the failing inputs. -/
theorem c1_empty_segments_behavior :
    splitShellCommand (normalizeRedirects (";".toList)) = [] ∧
    isSafeBashCommand (";".toList) = true ∧
    isSafeBashCommand ("".toList) = true ∧
    isSafeBashCommand ("   ".toList) = true := by decide

/-- C2 counterexample: a command containing an active occurrence of the
greater-than character that nevertheless classifies safe, because the
benign stderr redirect is stripped before the metacharacter check. -/
theorem c2_counterexample :
    hasActiveOccurrence sevenMetaChars ("cat file.txt 2>/dev/null".toList) = true ∧
    isSafeBashCommand ("cat file.txt 2>/dev/null".toList) = true := by decide

/-- C2 amended: for every command whose redirect-normalized form contains
an active occurrence of one of the seven metacharacters, classification
returns unsafe. -/
theorem c2_active_meta_unsafe (c : List Char)
    (h : hasActiveOccurrence sevenMetaChars (normalizeRedirects c) = true) :
    isSafeBashCommand c = false := by
  have h8 : hasShellMetaChars (normalizeRedirects c) = true := by
    rw [hasShellMetaChars_eq_hasActive]
    unfold hasActiveOccurrence at h ⊢
    rw [List.any_eq_true] at h ⊢
    obtain ⟨p, hp, hpt⟩ := h
    refine ⟨p, hp, ?_⟩
    rw [Bool.and_eq_true] at hpt ⊢
    refine ⟨hpt.1, ?_⟩
    have hm : p.1 ∈ sevenMetaChars := of_decide_eq_true hpt.2
    exact decide_eq_true (seven_mem_dangerous p.1 hm)
  simp only [isSafeBashCommand, h8, if_true]

/-- C2 witness: a variable expansion is an active dollar occurrence and the
command classifies unsafe. -/
theorem c2_active_meta_unsafe_witness :
    isSafeBashCommand ("echo $HOME".toList) = false :=
  c2_active_meta_unsafe _ (by decide)

/-- C3 counterexample: every dangerous character of this command sits
inside double quotes, yet the command is disqualified by the metacharacter
check, because the quote-blind redirect normalization removes the quoted
stderr merge and thereby repairs the backslash onto the closing quote,
leaving the later dollar character active. -/
theorem c3_counterexample :
    hasActiveOccurrence dangerousChars ("grep \"\\2>&1\" \"a$b\"".toList) = false ∧
    hasShellMetaChars (normalizeRedirects ("grep \"\\2>&1\" \"a$b\"".toList)) = true ∧
    isSafeBashCommand ("grep \"\\2>&1\" \"a$b\"".toList) = false := by decide

/-- C3 amended: provided redirect normalization leaves the command
unchanged, a command in which every occurrence of a dangerous
metacharacter is inactive (inside quotes or escaped, as judged by the
scanner) passes the metacharacter check, so those characters never cause
disqualification. -/
theorem c3_quoted_meta_neutral (c : List Char)
    (h1 : normalizeRedirects c = c)
    (h2 : hasActiveOccurrence dangerousChars c = false) :
    hasShellMetaChars (normalizeRedirects c) = false := by
  rw [h1, hasShellMetaChars_eq_hasActive]
  exact h2

/-- C3 witness: a quoted dollar in a command free of redirect patterns does
not trigger the metacharacter check. -/
theorem c3_quoted_meta_neutral_witness :
    hasShellMetaChars (normalizeRedirects ("grep \"a$b\" f".toList)) = false :=
  c3_quoted_meta_neutral _ (by decide) (by decide)

/-- C4 counterexample: normalization is not idempotent.  Removing the
double-append stderr merge splices the surrounding characters into a fresh
stderr merge, which only a second pass removes. -/
theorem c4_counterexample :
    normalizeRedirects (normalizeRedirects ("2>&2>>&11".toList)) ≠
      normalizeRedirects ("2>&2>>&11".toList) := by decide

/-- C4 amended: normalization is idempotent on every command whose once
normalized form contains no residual occurrence of a recognized redirect
pattern; a removal can otherwise splice text into a new occurrence. -/
theorem c4_normalize_idem_cond (s : List Char)
    (h : ∀ p ∈ redirPatterns, containsMatch p (normalizeRedirects s) = false) :
    normalizeRedirects (normalizeRedirects s) = normalizeRedirects s := by
  have h1 := replaceAll_nomatch redirPat1 _ (h redirPat1 (by decide))
  have h2 := replaceAll_nomatch redirPat2 _ (h redirPat2 (by decide))
  have h3 := replaceAll_nomatch redirPat3 _ (h redirPat3 (by decide))
  have h4 := replaceAll_nomatch redirPat4 _ (h redirPat4 (by decide))
  have h5 := replaceAll_nomatch redirPat5 _ (h redirPat5 (by decide))
  have h6 := replaceAll_nomatch redirPat6 _ (h redirPat6 (by decide))
  show replaceAll redirPat6 (replaceAll redirPat5 (replaceAll redirPat4
      (replaceAll redirPat3 (replaceAll redirPat2 (replaceAll redirPat1
        (normalizeRedirects s)))))) = normalizeRedirects s
  rw [h1, h2, h3, h4, h5, h6]

/-- C4 witness: stripping a stderr redirect from a simple listing command
reaches a match-free normal form, so a second normalization changes
nothing. -/
theorem c4_normalize_idem_cond_witness :
    normalizeRedirects (normalizeRedirects ("ls 2>/dev/null".toList)) =
      normalizeRedirects ("ls 2>/dev/null".toList) :=
  c4_normalize_idem_cond _ (by decide)

/-- C5: the claim says a redirect targeting any path other than the null
device remains in the normalized string and forces the unsafe verdict.
The code strips the null-device prefix of a redirect to the distinct path
/dev/nullify, leaving a whitelisted word, and the command classifies safe.
This theorem evaluates the code at the failing input. -/
theorem c5_nondevnull_redirect_behavior :
    normalizeRedirects ("cat foo > /dev/nullify".toList) = ("cat fooify".toList) ∧
    isSafeBashCommand ("cat foo > /dev/nullify".toList) = true := by decide

/-- C6: segment splitting splits exactly at active delimiters: the
two specified commands split into their expected segments, and the quoted
semicolon does not split. -/
theorem c6_split_segments :
    splitShellCommand ("a ; b | c".toList) =
      [("a".toList), ("b".toList), ("c".toList)] ∧
    splitShellCommand ("echo \"x;y\" ; ls".toList) =
      [("echo \"x;y\"".toList), ("ls".toList)] := by decide

/-- C7: the forwarding rule skips the xargs flags, where each flag of the
fixed set consumes one following word; the three specified commands
classify as stated, a bare xargs is unsafe, and any argument-taking flag
with nothing following makes the segment unsafe. -/
theorem c7_xargs_rule :
    isSafeBashCommand ("xargs -n 1 head".toList) = true ∧
    isSafeBashCommand ("xargs rm".toList) = false ∧
    isSafeBashCommand ("xargs -I".toList) = false ∧
    checkSafeXargsCommand [("xargs".toList)] = false ∧
    ∀ w ∈ xargsFlagsWithArg,
      checkSafeXargsCommand [("xargs".toList), w] = false := by decide

/-- C7 witness: the replacement-string flag with its argument missing. -/
theorem c7_xargs_rule_witness :
    checkSafeXargsCommand [("xargs".toList), ("-I".toList)] = false :=
  c7_xargs_rule.2.2.2.2 ("-I".toList) (by decide)

/-- C8 counterexample: the claim says a forwarding command whose payload is
itself a forwarding command is rejected after one level of recursion; the
code accepts it. -/
theorem c8_counterexample :
    isSafeBashCommand ("xargs xargs ls".toList) = true := by decide

/-- C8 amended: there is no fixed recursion depth guard.  A forwarded
forwarding command recurses through the full pipeline and is accepted when
the innermost payload is safe: the doubly forwarding command is safe via
its two successively shorter payloads. -/
theorem c8_xargs_forwarding_recurses :
    isSafeBashCommand ("xargs xargs ls".toList) = true ∧
    isCommandSafe ("xargs ls".toList) = true ∧
    isCommandSafe ("ls".toList) = true := by decide

/-- The fueled pipeline with the error path projects onto the boolean
pipeline: whenever it returns a defined verdict, the boolean model returns
that verdict at the same fuel. -/
theorem isCommandSafeFT_agrees : ∀ (fuel : Nat) (s : List Char) (b : Bool),
    isCommandSafeFT fuel s = some b → isCommandSafeF fuel s = b := by
  intro fuel
  induction fuel with
  | zero =>
    intro s b h
    simp only [isCommandSafeFT, Option.some_inj] at h
    subst h
    rfl
  | succ n ih =>
    intro s b h
    simp only [isCommandSafeFT] at h
    simp only [isCommandSafeF]
    by_cases h0 : (splitWords s).isEmpty = true
    · rw [if_pos h0] at h
      simp only [Option.some_inj] at h
      subst h
      simp [h0]
    · rw [if_neg h0] at h
      have h0' : (splitWords s).isEmpty = false := by simpa using h0
      by_cases h1 : checkSimpleSafeCommand (splitWords s) = true
      · rw [if_pos h1] at h
        simp only [Option.some_inj] at h
        subst h
        simp [h0', h1]
      · rw [if_neg h1] at h
        by_cases hth : subcommandThrows (splitWords s) = true
        · rw [if_pos hth] at h
          exact absurd h (by simp)
        · rw [if_neg hth] at h
          by_cases h2 : checkSafeSubcommand (splitWords s) = true
          · rw [if_pos h2] at h
            simp only [Option.some_inj] at h
            subst h
            simp [h0', h2]
          · rw [if_neg h2] at h
            by_cases h3 : checkSafeGhCommand (splitWords s) = true
            · rw [if_pos h3] at h
              simp only [Option.some_inj] at h
              subst h
              simp [h0', h3]
            · rw [if_neg h3] at h
              by_cases h4 : checkSafeKtoolsCommand (splitWords s) = true
              · rw [if_pos h4] at h
                simp only [Option.some_inj] at h
                subst h
                simp [h0', h4]
              · rw [if_neg h4] at h
                have h1' : checkSimpleSafeCommand (splitWords s) = false := by simpa using h1
                have h2' : checkSafeSubcommand (splitWords s) = false := by simpa using h2
                have h3' : checkSafeGhCommand (splitWords s) = false := by simpa using h3
                have h4' : checkSafeKtoolsCommand (splitWords s) = false := by simpa using h4
                by_cases h5 : isXargsWord (splitWords s) = true
                · rw [if_pos h5] at h
                  cases hp : xargsPayload (splitWords s).tail with
                  | none =>
                    rw [hp] at h
                    simp only [Option.some_inj] at h
                    subst h
                    simp [h0', h1', h2', h3', h4', h5, hp, Option.elim]
                  | some p =>
                    rw [hp] at h
                    have hF := ih p b h
                    simp [h0', h1', h2', h3', h4', h5, hp, Option.elim, hF]
                · rw [if_neg h5] at h
                  simp only [Option.some_inj] at h
                  subst h
                  have h5' : isXargsWord (splitWords s) = false := by simpa using h5
                  simp [h0', h1', h2', h3', h4', h5']

/-- The segment loop with the error path projects onto the boolean loop of
isSafeBashCommand. -/
theorem allPartsSafeT_agrees : ∀ (parts : List (List Char)) (b : Bool),
    allPartsSafeT parts = some b →
      (parts.all fun part => isCommandSafe part) = b := by
  intro parts
  induction parts with
  | nil =>
    intro b h
    simp only [allPartsSafeT, Option.some_inj] at h
    subst h
    rfl
  | cons part rest ih =>
    intro b h
    simp only [allPartsSafeT] at h
    cases hq : isCommandSafeT part with
    | none =>
      rw [hq] at h
      exact absurd h (by simp)
    | some v =>
      rw [hq] at h
      have hv : isCommandSafe part = v :=
        isCommandSafeFT_agrees (numWords part + 1) part v hq
      cases v with
      | false =>
        simp only [Option.some_inj] at h
        subst h
        simp [List.all_cons, hv]
      | true =>
        have hrest := ih b h
        simp [List.all_cons, hv, hrest]

/-- The full classifier with the error path projects onto the boolean
classifier on every input where no exception is thrown. -/
theorem isSafeBashCommandT_agrees (c : List Char) (b : Bool)
    (h : isSafeBashCommandT c = some b) : isSafeBashCommand c = b := by
  simp only [isSafeBashCommandT] at h
  simp only [isSafeBashCommand]
  by_cases hm : hasShellMetaChars (normalizeRedirects c) = true
  · rw [if_pos hm] at h ⊢
    simp only [Option.some_inj] at h
    exact h
  · rw [if_neg hm] at h ⊢
    exact allPartsSafeT_agrees _ b h

/-- C9: the claim says classification never throws and always returns a
definite boolean.  The code throws: with an inherited prototype key such as
toString as first word and a second word present, the in test of the
subcommand policy succeeds through the prototype chain, the looked-up value
is not a Set, and the has call raises a TypeError that escapes
isSafeBashCommand.  This theorem evaluates the embedded error path at the
failing inputs (none is the thrown TypeError) and shows an ordinary safe
input still yields a boolean. -/
theorem c9_throw_behavior :
    subcommandThrows (splitWords ("toString x".toList)) = true ∧
    checkSafeSubcommandT [("toString".toList), ("x".toList)] = none ∧
    isSafeBashCommandT ("toString x".toList) = none ∧
    isSafeBashCommandT ("constructor x".toList) = none ∧
    isSafeBashCommandT ("ls -la".toList) = some true := by decide

/-- C10: with no UI available the handler blocks every tool other than
read with the no-UI reason, including a bash command the classifier itself
judges safe, because the no-UI check precedes the safety check. -/
theorem c10_no_ui_blocks :
    (∀ (toolName : List Char) (command : Option (List Char)),
        toolName ≠ ("read".toList) →
        handleToolCall toolName false command =
          ToolDecision.block (toolName ++ " blocked (no UI for confirmation)".toList)) ∧
    isSafeBashCommand ("ls -la".toList) = true ∧
    handleToolCall ("bash".toList) false (some ("ls -la".toList)) =
      ToolDecision.block ("bash blocked (no UI for confirmation)".toList) := by
  refine ⟨?_, by decide, by decide⟩
  intro toolName command hn
  have h1 : ¬ toolName ∈ allowedTools := by
    simpa [allowedTools] using hn
  simp [handleToolCall, h1]

/-- C10 witness: the write tool with no UI is blocked. -/
theorem c10_no_ui_blocks_witness :
    handleToolCall ("write".toList) false none =
      ToolDecision.block (("write".toList) ++ " blocked (no UI for confirmation)".toList) :=
  c10_no_ui_blocks.1 ("write".toList) none (by decide)
